import Mathlib

/-!
Verification of the pull-request fetching, sorting and commit-reconciliation
pipeline of `src/main.ts` (class `PullRequests` and `sortPullRequests`).

Shallow embedding notes:
* `moment.Moment` timestamps are embedded as `Int` (epoch milliseconds);
  `a.isAfter(b)` is `a > b`, `a.isBefore(b)` is `a < b`.
* The octokit paginator is embedded as an explicit `List (List PullData)` of
  pages handed to `getBetweenDates`; the single-PR endpoint of `getSingle` is
  embedded as an `Except ApiError PullData` response value.
* A JavaScript runtime crash (reading a property of `undefined`) is embedded
  as `none` in an `Option` result; log output is returned as a `List String`.
* Commit summaries and exclude patterns are embedded as `List Char`;
  JavaScript `String.prototype.includes` becomes `hasSub`, and the regex
  search `/Merge pull request #(\d+)/` becomes `findPR`.
-/

/-- Data of one element of an octokit `pulls.list` page (the fields read by
`main.ts`); `merged_at` is `none` for a closed-but-unmerged pull request. -/
structure PullData where
  number : Nat
  title : String
  html_url : String
  merged_at : Option Int
  user_login : String
  base_repo_full_name : String
  labels : List String
  body : String
deriving DecidableEq, Inhabited

/-- The `PullRequestInfo` interface of `main.ts`. -/
structure PullRequestInfo where
  number : Nat
  title : String
  htmlURL : String
  mergedAt : Int
  author : String
  repoName : String
  labels : List String
  body : String
deriving DecidableEq, Inhabited

/-- Construction of a `PullRequestInfo` from one page entry, as in the body of
the accumulation loop of `getBetweenDates` (`moment(pr.merged_at)` is only
evaluated on entries that passed the `!!p.merged_at` filter, so the `getD 0`
default is never observable there). -/
def toPRInfo (pr : PullData) : PullRequestInfo :=
  { number := pr.number
    title := pr.title
    htmlURL := pr.html_url
    mergedAt := pr.merged_at.getD 0
    author := pr.user_login
    repoName := pr.base_repo_full_name
    labels := pr.labels
    body := pr.body }

/-- The `sortPullRequests` function of `main.ts`: a stable sort (JavaScript
`Array.prototype.sort` is stable, and `List.insertionSort` is a stable sort)
under the `mergedAt.isBefore` comparator — the comparator returns `-1`/`1`/`0`
by `isBefore`, so `a` may stay before `b` exactly when
`a.mergedAt ≤ b.mergedAt`; the `ascending = false` branch swaps the two
comparator parameters. -/
def sortPullRequests (pullRequests : List PullRequestInfo) (ascending : Bool) :
    List PullRequestInfo :=
  if ascending then
    pullRequests.insertionSort (fun a b => a.mergedAt ≤ b.mergedAt)
  else
    pullRequests.insertionSort (fun a b => b.mergedAt ≤ a.mergedAt)

/-- The merged entries of one page, converted: embeds the loop
`for (const pr of prs.filter(p => !!p.merged_at)) mergedPRs.push({...})`. -/
def pageMerged (prs : List PullData) : List PullRequestInfo :=
  (prs.filter (fun p => p.merged_at.isSome)).map toPRInfo

/-- The early-exit condition of `getBetweenDates`, evaluated on `prs[0]`:
`firstPR.merged_at && fromDate.isAfter(moment(firstPR.merged_at)) ||
mergedPRs.length >= maxPullRequests`. -/
def stopCond (firstPR : PullData) (accLen : Nat) (fromDate : Int)
    (maxPullRequests : Nat) : Bool :=
  (match firstPR.merged_at with
   | some m => decide (fromDate > m)
   | none => false) || decide (accLen ≥ maxPullRequests)

/-- The pagination loop of `getBetweenDates` over the remaining pages, with the
accumulated `mergedPRs` passed explicitly.  On an empty page the JavaScript
code evaluates `prs[0].merged_at` with `prs[0] === undefined` and throws a
`TypeError`; that crash is embedded as `none`. -/
def getBetweenDatesGo (fromDate : Int) (maxPullRequests : Nat) :
    List (List PullData) → List PullRequestInfo → Option (List PullRequestInfo)
  | [], acc => some (sortPullRequests acc true)
  | prs :: rest, acc =>
    let accNew := acc ++ pageMerged prs
    match prs with
    | [] => none
    | firstPR :: _ =>
      if stopCond firstPR accNew.length fromDate maxPullRequests then
        some (sortPullRequests accNew true)
      else
        getBetweenDatesGo fromDate maxPullRequests rest accNew

/-- The `getBetweenDates` method of `main.ts`.  `owner` and `repo` only shape
the request already reflected in `pages`; `toDate` is declared (and silenced
for the unused-variable lint) but never read. -/
def getBetweenDates (owner repo : String) (fromDate toDate : Int)
    (maxPullRequests : Nat) (pages : List (List PullData)) :
    Option (List PullRequestInfo) :=
  let _ := owner
  let _ := repo
  let _ := toDate
  getBetweenDatesGo fromDate maxPullRequests pages []

/-- Failure of the embedded `octokit.pulls.get` call: a missing pull request
(HTTP 404), a transport failure, or an authentication failure, each carrying
its `message`. -/
inductive ApiError where
  | notFound (message : String)
  | transport (message : String)
  | auth (message : String)
deriving DecidableEq

/-- The `e.message` read in the catch block of `getSingle`. -/
def ApiError.message : ApiError → String
  | .notFound m => m
  | .transport m => m
  | .auth m => m

/-- The `getSingle` method of `main.ts`: the whole request is wrapped in
`try/catch`; any error is logged via `core.warning` and turned into `null`.
The returned pair is (result, warning log lines). -/
def getSingle (owner repo : String) (prNumber : Nat)
    (response : Except ApiError PullData) :
    Option PullRequestInfo × List String :=
  match response with
  | .ok pr => (some (toPRInfo pr), [])
  | .error e =>
    (none,
     ["Cannot find PR " ++ owner ++ "/" ++ repo ++ "#" ++ toString prNumber ++
      " - " ++ e.message])

/-- Modelled from the spec: the `CommitInfo` record (its defining file
`commits.ts` is not under `src/`) — sha, summary line, author, and an optional
associated pull-request number assigned during reconciliation. -/
structure CommitInfo where
  sha : String
  summary : List Char
  author : String
  prNumber : Option Nat
deriving DecidableEq, Inhabited

/-- Helper for literal matching: `dropLit pat s` is `some` of the rest of `s`
when `s` starts with `pat`, else `none`. -/
def dropLit : List Char → List Char → Option (List Char)
  | [], s => some s
  | _ :: _, [] => none
  | c :: cs, d :: ds => if c = d then dropLit cs ds else none

/-- Embedding of JavaScript `s.includes(sub)`: `sub` occurs as a contiguous
run inside `s` (always true for the empty `sub`). -/
def hasSub (s sub : List Char) : Bool :=
  match s with
  | [] => sub.isEmpty
  | _ :: rest => (dropLit sub s).isSome || hasSub rest sub

/-- The literal part of the regex `/Merge pull request #(\d+)/`. -/
def prPattern : List Char := "Merge pull request #".toList

/-- The maximal leading run of ASCII digits, as captured by the greedy
`(\d+)` group. -/
def takeDigits : List Char → List Char
  | [] => []
  | c :: cs => if c.isDigit then c :: takeDigits cs else []

/-- `Number.parseInt(match[1], 10)` on a digit capture. -/
def digitsToNat (ds : List Char) : Nat :=
  ds.foldl (fun n c => n * 10 + (c.toNat - 48)) 0

/-- Embedding of `summary.match(/Merge pull request #(\d+)/)`: scan left to
right for the first position where the literal pattern is followed by at least
one digit, and return the parsed value of the maximal digit run there. -/
def findPR : List Char → Option Nat
  | [] => none
  | c :: rest =>
    match dropLit prPattern (c :: rest) with
    | some tail =>
      let ds := takeDigits tail
      if ds.isEmpty then findPR rest else some (digitsToNat ds)
    | none => findPR rest

/-- The `filterCommits` method of `main.ts`: a commit whose summary contains
any of the exclude substrings is skipped (the enclosing
`if(excludeMergeBranches)` truthiness test is always true for an array);
otherwise the summary is matched against the merge-pull-request regex, a
non-matching commit is skipped, and a matching one is kept with `prNumber`
set to the captured number. -/
def filterCommits (commits : List CommitInfo)
    (excludeMergeBranches : List (List Char)) : List CommitInfo :=
  commits.filterMap fun commit =>
    if excludeMergeBranches.any (fun ex => hasSub commit.summary ex) then
      none
    else
      match findPR commit.summary with
      | none => none
      | some n => some { commit with prNumber := some n }

/-- Modelled from the spec: the stop condition the spec claims for the
pagination loop — (a) the oldest (last) item of the current page has a merge
timestamp earlier than `fromDate`, or (b) the accumulated count has reached
`maxPullRequests`.  Stated for comparison with `stopCond`, the condition the
code evaluates. -/
def stopCondSpec (prs : List PullData) (accLen : Nat) (fromDate : Int)
    (maxPullRequests : Nat) : Bool :=
  (match prs.getLast? with
   | some lastPR =>
     match lastPR.merged_at with
     | some m => decide (m < fromDate)
     | none => false
   | none => false) || decide (accLen ≥ maxPullRequests)

/-- Sample page entry used by concrete witnesses and counterexamples. -/
def mkPD (n : Nat) (m : Option Int) : PullData :=
  { number := n, title := "t", html_url := "u", merged_at := m,
    user_login := "a", base_repo_full_name := "r", labels := [], body := "b" }

/-- Sample commit used by concrete witnesses. -/
def mkCommit (sha : String) (summary : String) : CommitInfo :=
  { sha := sha, summary := summary.toList, author := "a", prNumber := none }

/-! ## Sample data for concrete instantiations -/

/-- Sample commit matching both an exclude substring and the merge-PR
pattern. -/
def excludedCommit : CommitInfo :=
  mkCommit "c1" "Merge pull request #12 from skipme/branch"

/-- Sample commit matching only the merge-PR pattern. -/
def keptCommit : CommitInfo :=
  mkCommit "c2" "Merge pull request #34 from ok/branch"

/-- Sample exclude-substring list. -/
def sampleExcludes : List (List Char) := ["skipme".toList]

/-- Sample commit list. -/
def sampleCommits : List CommitInfo := [excludedCommit, keptCommit]

/-! ## Helper lemmas about sorting -/

theorem sortPullRequests_perm (l : List PullRequestInfo) (b : Bool) :
    (sortPullRequests l b).Perm l := by
  cases b
  · exact List.perm_insertionSort _ l
  · exact List.perm_insertionSort _ l

theorem sortPullRequests_sorted_asc (l : List PullRequestInfo) :
    (sortPullRequests l true).Pairwise fun a b => a.mergedAt ≤ b.mergedAt := by
  haveI : IsTotal PullRequestInfo (fun a b => a.mergedAt ≤ b.mergedAt) :=
    ⟨fun a b => Int.le_total a.mergedAt b.mergedAt⟩
  haveI : IsTrans PullRequestInfo (fun a b => a.mergedAt ≤ b.mergedAt) :=
    ⟨fun _ _ _ hab hbc => le_trans hab hbc⟩
  exact List.sorted_insertionSort _ l

theorem sortPullRequests_sorted_desc (l : List PullRequestInfo) :
    (sortPullRequests l false).Pairwise fun a b => b.mergedAt ≤ a.mergedAt := by
  haveI : IsTotal PullRequestInfo (fun a b => b.mergedAt ≤ a.mergedAt) :=
    ⟨fun a b => Int.le_total b.mergedAt a.mergedAt⟩
  haveI : IsTrans PullRequestInfo (fun a b => b.mergedAt ≤ a.mergedAt) :=
    ⟨fun _ _ _ hab hbc => le_trans hbc hab⟩
  exact List.sorted_insertionSort _ l

/-! ## Helper lemmas about the pagination loop -/

theorem pageMerged_mem {p : PullRequestInfo} {prs : List PullData}
    (h : p ∈ pageMerged prs) :
    ∃ e ∈ prs, e.merged_at.isSome ∧ p = toPRInfo e := by
  simp only [pageMerged, List.mem_map, List.mem_filter] at h
  obtain ⟨e, ⟨he, hm⟩, rfl⟩ := h
  exact ⟨e, he, hm, rfl⟩

theorem getBetweenDatesGo_sorted (fromDate : Int) (maxPR : Nat) :
    ∀ (pages : List (List PullData)) (acc l : List PullRequestInfo),
      getBetweenDatesGo fromDate maxPR pages acc = some l →
      l.Pairwise fun a b => a.mergedAt ≤ b.mergedAt := by
  intro pages
  induction pages with
  | nil =>
    intro acc l h
    simp only [getBetweenDatesGo, Option.some.injEq] at h
    subst h
    exact sortPullRequests_sorted_asc acc
  | cons prs rest ih =>
    intro acc l h
    cases prs with
    | nil => simp [getBetweenDatesGo] at h
    | cons firstPR tl =>
      simp only [getBetweenDatesGo] at h
      split at h
      · simp only [Option.some.injEq] at h
        subst h
        exact sortPullRequests_sorted_asc _
      · exact ih _ _ h

theorem getBetweenDatesGo_mem (fromDate : Int) (maxPR : Nat) :
    ∀ (pages : List (List PullData)) (acc l : List PullRequestInfo),
      getBetweenDatesGo fromDate maxPR pages acc = some l →
      ∀ p ∈ l, p ∈ acc ∨ ∃ page ∈ pages, ∃ e ∈ page, e.merged_at.isSome ∧ p = toPRInfo e := by
  intro pages
  induction pages with
  | nil =>
    intro acc l h p hp
    simp only [getBetweenDatesGo, Option.some.injEq] at h
    subst h
    exact Or.inl ((sortPullRequests_perm acc true).mem_iff.1 hp)
  | cons prs rest ih =>
    intro acc l h p hp
    cases prs with
    | nil => simp [getBetweenDatesGo] at h
    | cons firstPR tl =>
      simp only [getBetweenDatesGo] at h
      split at h
      · simp only [Option.some.injEq] at h
        subst h
        have hmem := (sortPullRequests_perm _ true).mem_iff.1 hp
        rcases List.mem_append.1 hmem with hacc | hpm
        · exact Or.inl hacc
        · obtain ⟨e, he, hm, rfl⟩ := pageMerged_mem hpm
          exact Or.inr ⟨firstPR :: tl, List.mem_cons_self _ _, e, he, hm, rfl⟩
      · rcases ih _ _ h p hp with hacc | ⟨page, hpage, e, he, hm, rfl⟩
        · rcases List.mem_append.1 hacc with h1 | h2
          · exact Or.inl h1
          · obtain ⟨e, he, hm, rfl⟩ := pageMerged_mem h2
            exact Or.inr ⟨firstPR :: tl, List.mem_cons_self _ _, e, he, hm, rfl⟩
        · exact Or.inr ⟨page, List.mem_cons_of_mem _ hpage, e, he, hm, rfl⟩

theorem getBetweenDatesGo_isSome (fromDate : Int) (maxPR : Nat) :
    ∀ (pages : List (List PullData)) (acc : List PullRequestInfo),
      (∀ p ∈ pages, p ≠ []) →
      (getBetweenDatesGo fromDate maxPR pages acc).isSome = true := by
  intro pages
  induction pages with
  | nil => intro acc _; rfl
  | cons prs rest ih =>
    intro acc hne
    cases prs with
    | nil => exact absurd rfl (hne [] (List.mem_cons_self _ _))
    | cons firstPR tl =>
      simp only [getBetweenDatesGo]
      split
      · rfl
      · exact ih _ (fun p hp => hne p (List.mem_cons_of_mem _ hp))

theorem getBetweenDatesGo_ge (fromDate : Int) (maxPR : Nat) :
    ∀ (pages : List (List PullData)) (acc l : List PullRequestInfo),
      (∀ page ∈ pages, ∀ e ∈ page, fromDate ≤ e.merged_at.getD fromDate) →
      getBetweenDatesGo fromDate maxPR pages acc = some l →
      maxPR ≤ acc.length + (pages.map fun p => (pageMerged p).length).sum →
      maxPR ≤ l.length := by
  intro pages
  induction pages with
  | nil =>
    intro acc l _ h hle
    simp only [getBetweenDatesGo, Option.some.injEq] at h
    subst h
    rw [(sortPullRequests_perm acc true).length_eq]
    simpa using hle
  | cons prs rest ih =>
    intro acc l hnew h hle
    cases prs with
    | nil => simp [getBetweenDatesGo] at h
    | cons firstPR tl =>
      simp only [getBetweenDatesGo] at h
      split at h
      · rename_i hc
        simp only [Option.some.injEq] at h
        subst h
        rw [(sortPullRequests_perm _ true).length_eq]
        simp only [stopCond, Bool.or_eq_true, decide_eq_true_eq] at hc
        rcases hc with hA | hB
        · cases hm : firstPR.merged_at with
          | none => rw [hm] at hA; simp at hA
          | some m =>
            rw [hm] at hA
            simp only [decide_eq_true_eq] at hA
            have := hnew (firstPR :: tl) (List.mem_cons_self _ _) firstPR
              (List.mem_cons_self _ _)
            rw [hm] at this
            simp only [Option.getD_some] at this
            omega
        · exact hB
      · apply ih _ _ (fun page hp => hnew page (List.mem_cons_of_mem _ hp)) h
        rw [List.length_append]
        simp only [List.map_cons, List.sum_cons] at hle ⊢
        omega

/-! ## Claims -/

/-- C1 counterexample: with `maxPullRequests = 2` and a single delivered page
of six merged pull requests all newer than `fromDate`, the claim says exactly
2 entries are returned; the code accumulates the whole page before testing the
bound and returns all 6. -/
theorem c1_counterexample :
    (getBetweenDates "o" "r" 0 100 2
        [[mkPD 1 (some 6), mkPD 2 (some 5), mkPD 3 (some 4),
          mkPD 4 (some 3), mkPD 5 (some 2), mkPD 6 (some 1)]]).map List.length =
      some 6 ∧ (6 : Nat) ≠ 2 := by decide

/-- C1 (amended): when every merge timestamp exposed by the pages is at least
`fromDate` and the pages together contain at least `maxPullRequests` merged
entries, a successful `getBetweenDates` returns at least `maxPullRequests`
entries — not exactly that many, since the page reaching the bound is
accumulated whole — sorted ascending by merge timestamp. -/
theorem c1_bounded_fetch (owner repo : String) (fromDate toDate : Int)
    (maxPR : Nat) (pages : List (List PullData)) (l : List PullRequestInfo)
    (hnew : ∀ page ∈ pages, ∀ e ∈ page, fromDate ≤ e.merged_at.getD fromDate)
    (htotal : maxPR ≤ (pages.map fun p => (pageMerged p).length).sum)
    (hres : getBetweenDates owner repo fromDate toDate maxPR pages = some l) :
    maxPR ≤ l.length ∧ l.Pairwise fun a b => a.mergedAt ≤ b.mergedAt := by
  refine ⟨?_, getBetweenDatesGo_sorted fromDate maxPR pages [] l hres⟩
  exact getBetweenDatesGo_ge fromDate maxPR pages [] l hnew hres (by simpa using htotal)

/-- C1 witness: three one-entry pages with merge times 1, 2, 3, all newer than
`fromDate = 0`, and `maxPullRequests = 2`: the first two entries are returned
sorted ascending. -/
theorem c1_bounded_fetch_witness :
    2 ≤ ([toPRInfo (mkPD 1 (some 1)), toPRInfo (mkPD 2 (some 2))] : List PullRequestInfo).length ∧
    ([toPRInfo (mkPD 1 (some 1)), toPRInfo (mkPD 2 (some 2))] : List PullRequestInfo).Pairwise
      (fun a b => a.mergedAt ≤ b.mergedAt) :=
  c1_bounded_fetch "o" "r" 0 10 2
    [[mkPD 1 (some 1)], [mkPD 2 (some 2)], [mkPD 3 (some 3)]]
    [toPRInfo (mkPD 1 (some 1)), toPRInfo (mkPD 2 (some 2))]
    (by decide) (by decide) (by decide)

/-- C2 counterexample: a page whose last (oldest) entry merged before
`fromDate` satisfies the spec's stop condition, yet the code — which tests
`prs[0]`, the first entry — requests and accumulates the next page: the
returned list contains the entry of the second page. -/
theorem c2_counterexample :
    stopCondSpec [mkPD 1 (some 10), mkPD 2 (some (-5))]
      (pageMerged [mkPD 1 (some 10), mkPD 2 (some (-5))]).length 0 100 = true ∧
    toPRInfo (mkPD 3 (some 5)) ∈
      (getBetweenDates "o" "r" 0 100 100
        [[mkPD 1 (some 10), mkPD 2 (some (-5))], [mkPD 3 (some 5)]]).getD [] := by
  decide

/-- C2 (amended): pagination stops exactly when either (a) the first item of
the current page (`prs[0]`, newest by update time — not the last item) has a
non-null merge timestamp strictly earlier than `fromDate`, or (b) the
accumulated merged count has reached `maxPullRequests`; otherwise the next
page is processed. -/
theorem c2_stop_condition (fromDate : Int) (maxPR : Nat) (firstPR : PullData)
    (tl : List PullData) (rest : List (List PullData))
    (acc : List PullRequestInfo) :
    getBetweenDatesGo fromDate maxPR ((firstPR :: tl) :: rest) acc =
      (if stopCond firstPR (acc ++ pageMerged (firstPR :: tl)).length fromDate maxPR then
        some (sortPullRequests (acc ++ pageMerged (firstPR :: tl)) true)
      else
        getBetweenDatesGo fromDate maxPR rest (acc ++ pageMerged (firstPR :: tl))) := rfl

/-- C3: for pairwise-distinct merge timestamps, `sortPullRequests(items, true)`
is a permutation of `items` ordered by non-decreasing `mergedAt`, and
`sortPullRequests(items, false)` is the reverse of that sequence. -/
theorem c3_sort_ordering (items : List PullRequestInfo)
    (hdist : items.Pairwise fun a b => a.mergedAt ≠ b.mergedAt) :
    (sortPullRequests items true).Perm items ∧
    ((sortPullRequests items true).Pairwise fun a b => a.mergedAt ≤ b.mergedAt) ∧
    sortPullRequests items false = (sortPullRequests items true).reverse := by
  have hperm := sortPullRequests_perm items true
  have hsorted := sortPullRequests_sorted_asc items
  refine ⟨hperm, hsorted, ?_⟩
  haveI : IsAntisymm PullRequestInfo (fun a b => b.mergedAt < a.mergedAt) :=
    ⟨fun a b h1 h2 => absurd (lt_trans h1 h2) (lt_irrefl _)⟩
  have hdistT : (sortPullRequests items true).Pairwise fun a b => a.mergedAt ≠ b.mergedAt :=
    ((sortPullRequests_perm items true).pairwise_iff (fun h => h.symm)).2 hdist
  have hdistF : (sortPullRequests items false).Pairwise fun a b => a.mergedAt ≠ b.mergedAt :=
    ((sortPullRequests_perm items false).pairwise_iff (fun h => h.symm)).2 hdist
  have hstrictF : (sortPullRequests items false).Pairwise fun a b => b.mergedAt < a.mergedAt :=
    ((sortPullRequests_sorted_desc items).and hdistF).imp
      (fun h => lt_of_le_of_ne h.1 (Ne.symm h.2))
  have hstrictT : (sortPullRequests items true).Pairwise fun a b => a.mergedAt < b.mergedAt :=
    (hsorted.and hdistT).imp (fun h => lt_of_le_of_ne h.1 h.2)
  have hrev : ((sortPullRequests items true).reverse).Pairwise fun a b => b.mergedAt < a.mergedAt :=
    List.pairwise_reverse.2 hstrictT
  have hpermFR : (sortPullRequests items false).Perm ((sortPullRequests items true).reverse) :=
    (sortPullRequests_perm items false).trans
      (hperm.symm.trans (List.reverse_perm _).symm)
  exact List.eq_of_perm_of_sorted hpermFR hstrictF hrev

/-- C3 witness: three items with distinct merge times 5, 2, 9. -/
theorem c3_sort_ordering_witness :
    (sortPullRequests [toPRInfo (mkPD 1 (some 5)), toPRInfo (mkPD 2 (some 2)),
        toPRInfo (mkPD 3 (some 9))] true).Perm
      [toPRInfo (mkPD 1 (some 5)), toPRInfo (mkPD 2 (some 2)), toPRInfo (mkPD 3 (some 9))] ∧
    ((sortPullRequests [toPRInfo (mkPD 1 (some 5)), toPRInfo (mkPD 2 (some 2)),
        toPRInfo (mkPD 3 (some 9))] true).Pairwise fun a b => a.mergedAt ≤ b.mergedAt) ∧
    sortPullRequests [toPRInfo (mkPD 1 (some 5)), toPRInfo (mkPD 2 (some 2)),
        toPRInfo (mkPD 3 (some 9))] false =
      (sortPullRequests [toPRInfo (mkPD 1 (some 5)), toPRInfo (mkPD 2 (some 2)),
        toPRInfo (mkPD 3 (some 9))] true).reverse :=
  c3_sort_ordering _ (by decide)

/-- C4: exclusion takes precedence — every commit kept by `filterCommits` has
a summary containing none of the exclude substrings, so a commit containing
one (even when its summary also matches the merge-PR pattern) never appears
in the output. -/
theorem c4_exclusion_precedence (commits : List CommitInfo)
    (excl : List (List Char)) (c : CommitInfo)
    (hc : c ∈ filterCommits commits excl) :
    ∀ ex ∈ excl, hasSub c.summary ex = false := by
  simp only [filterCommits, List.mem_filterMap] at hc
  obtain ⟨c0, -, hf⟩ := hc
  split at hf
  · exact absurd hf (by simp)
  · rename_i hex
    split at hf
    · exact absurd hf (by simp)
    · rename_i n hm
      simp only [Option.some.injEq] at hf
      subst hf
      intro ex hmem
      rw [Bool.not_eq_true, List.any_eq_false] at hex
      simpa using hex ex hmem

/-- C4 witness: a commit whose summary contains the exclude substring and also
matches the merge-PR pattern is dropped, while the kept commit matches no
exclude substring. -/
theorem c4_exclusion_precedence_witness :
    ({ keptCommit with prNumber := some 34 } : CommitInfo) ∈
      filterCommits sampleCommits sampleExcludes ∧
    ∀ ex ∈ sampleExcludes,
      hasSub ({ keptCommit with prNumber := some 34 } : CommitInfo).summary ex = false :=
  ⟨by decide,
   c4_exclusion_precedence sampleCommits sampleExcludes _ (by decide)⟩

/-- C5: a commit is kept by `filterCommits` only if its summary matches the
merge-pull-request pattern (a case-sensitive search, not a whole-line match),
and each kept commit's `prNumber` is the decimal number captured by the
pattern. -/
theorem c5_pattern_capture (commits : List CommitInfo)
    (excl : List (List Char)) (c : CommitInfo)
    (hc : c ∈ filterCommits commits excl) :
    ∃ n, findPR c.summary = some n ∧ c.prNumber = some n := by
  simp only [filterCommits, List.mem_filterMap] at hc
  obtain ⟨c0, -, hf⟩ := hc
  split at hf
  · exact absurd hf (by simp)
  · split at hf
    · exact absurd hf (by simp)
    · rename_i n hm
      simp only [Option.some.injEq] at hf
      subst hf
      exact ⟨n, hm, rfl⟩

/-- C5 witness: the kept commit's summary matches the pattern with capture 34,
and its `prNumber` is set to 34. -/
theorem c5_pattern_capture_witness :
    ∃ n, findPR ({ keptCommit with prNumber := some 34 } : CommitInfo).summary = some n ∧
      ({ keptCommit with prNumber := some 34 } : CommitInfo).prNumber = some n :=
  c5_pattern_capture sampleCommits sampleExcludes _ (by decide)

/-- C6: every entry of a successful `getBetweenDates` result was built (via
`toPRInfo`) from a page entry with a non-null merge timestamp; unmerged
entries are filtered out of every page before accumulation. -/
theorem c6_merged_only (owner repo : String) (fromDate toDate : Int)
    (maxPR : Nat) (pages : List (List PullData)) (l : List PullRequestInfo)
    (hres : getBetweenDates owner repo fromDate toDate maxPR pages = some l) :
    ∀ p ∈ l, ∃ page ∈ pages, ∃ e ∈ page,
      e.merged_at = some p.mergedAt ∧ p = toPRInfo e := by
  intro p hp
  rcases getBetweenDatesGo_mem fromDate maxPR pages [] l hres p hp with
    hacc | ⟨page, hpage, e, he, hm, rfl⟩
  · simp at hacc
  · refine ⟨page, hpage, e, he, ?_, rfl⟩
    cases hme : e.merged_at with
    | none => rw [hme] at hm; simp at hm
    | some t => simp [toPRInfo, hme]

/-- C6 witness: a page holding one merged and one unmerged entry; the returned
item comes from the merged entry. -/
theorem c6_merged_only_witness :
    ∃ page ∈ [[mkPD 1 (some 3), mkPD 2 none]], ∃ e ∈ page,
      e.merged_at = some ((toPRInfo (mkPD 1 (some 3))).mergedAt) ∧
      toPRInfo (mkPD 1 (some 3)) = toPRInfo e :=
  c6_merged_only "o" "r" 0 9 5 [[mkPD 1 (some 3), mkPD 2 none]]
    [toPRInfo (mkPD 1 (some 3))] (by decide) (toPRInfo (mkPD 1 (some 3))) (by decide)

/-- C7: a not-found response makes `getSingle` return no data together with a
single logged warning; the function is total, so no error reaches the
caller. -/
theorem c7_soft_404 (owner repo : String) (prNumber : Nat) (msg : String) :
    getSingle owner repo prNumber (Except.error (ApiError.notFound msg)) =
      (none, ["Cannot find PR " ++ owner ++ "/" ++ repo ++ "#" ++
        toString prNumber ++ " - " ++ msg]) := rfl

/-- C8: `getBetweenDates` never reads `toDate`; two calls differing only in
`toDate` return the same list, so the fetcher alone does not enforce the
upper bound of the time window. -/
theorem c8_toDate_independent (owner repo : String)
    (fromDate toDate toDate' : Int) (maxPR : Nat)
    (pages : List (List PullData)) :
    getBetweenDates owner repo fromDate toDate maxPR pages =
      getBetweenDates owner repo fromDate toDate' maxPR pages := rfl

/-- C9: the `prs[0]` dereference of `getBetweenDates` has no emptiness guard:
whenever every delivered page is non-empty the fetch produces a result, while
an empty page makes the JavaScript throw a `TypeError` (embedded as `none`)
instead of returning a list. -/
theorem c9_empty_page_crash (owner repo : String) (fromDate toDate : Int)
    (maxPR : Nat) :
    (∀ pages : List (List PullData), (∀ p ∈ pages, p ≠ []) →
      (getBetweenDates owner repo fromDate toDate maxPR pages).isSome = true) ∧
    getBetweenDates owner repo fromDate toDate maxPR [[]] = none := by
  constructor
  · intro pages hne
    exact getBetweenDatesGo_isSome fromDate maxPR pages [] hne
  · rfl

/-- C9 witness: a non-empty page yields a result; the empty page yields the
crash value. -/
theorem c9_empty_page_crash_witness :
    (getBetweenDates "o" "r" 0 7 5 [[mkPD 1 (some 3)]]).isSome = true ∧
    getBetweenDates "o" "r" 0 7 5 [[]] = none :=
  ⟨(c9_empty_page_crash "o" "r" 0 7 5).1 [[mkPD 1 (some 3)]] (by decide),
   (c9_empty_page_crash "o" "r" 0 7 5).2⟩

/-- C10: the catch-all of `getSingle` converts every failure — not found,
transport, or auth alike — into no data plus one warning built from the
error's message; no exception propagates to the caller. -/
theorem c10_catch_all (owner repo : String) (prNumber : Nat) (e : ApiError) :
    getSingle owner repo prNumber (Except.error e) =
      (none, ["Cannot find PR " ++ owner ++ "/" ++ repo ++ "#" ++
        toString prNumber ++ " - " ++ e.message]) := rfl
